import Mathlib

/-!
Verification of the resume/job matching core: section-aware job-description
parsing (`src/ingestion/job_cleaner.py`), keyword matching
(`src/matching/keyword_matcher.py`), semantic chunk ranking
(`src/matching/similarity.py`) and verdict banding (`src/app/copy.py`),
shallowly embedded in Lean.

Python strings are modeled as `List Char` (`Str`), Python floats as exact
rationals `ℚ` (resp. reals `ℝ` where a square root occurs), Python sets as
`Finset String` (with the undocumented set-iteration order made explicit as a
list parameter where the source observes it via `list(...)`).
-/

namespace ResumeMatch

/-- A Python `str`, modeled as its list of characters. -/
abbrev Str := List Char

/-- Shorthand turning a Lean string literal into the `Str` model. -/
def strL (s : String) : Str := s.data

/-- ASCII whitespace recognized by Python's `str.strip()` (the inputs treated
here are ASCII, so the Unicode cases of `strip` do not arise). -/
def isSpace (c : Char) : Bool :=
  c == ' ' || c == '\t' || c == '\n' || c == '\r' || c == '\x0b' || c == '\x0c'

/-- Python `str.strip()`: drop leading and trailing whitespace. -/
def strip (s : Str) : Str :=
  ((s.dropWhile isSpace).reverse.dropWhile isSpace).reverse

/-- Python `str.lower()` (ASCII range, as in the inputs handled here). -/
def lowerStr (s : Str) : Str := s.map Char.toLower

/-- Python `text.split('\n')`: split at every newline; always nonempty. -/
def splitNl : Str → List Str
  | [] => [[]]
  | c :: rest =>
    if c = '\n' then [] :: splitNl rest
    else
      match splitNl rest with
      | [] => [[c]]
      | l :: ls => (c :: l) :: ls

/-- Python `'\n'.join(lines)`. -/
def joinNl : List Str → Str
  | [] => []
  | [s] => s
  | s :: s' :: rest => s ++ '\n' :: joinNl (s' :: rest)

/-- Python `any(keyword in line for keyword in kws)`: substring containment
of any of the keywords. -/
def containsAny (line : Str) (kws : List Str) : Bool :=
  kws.any (fun k => decide (k <:+: line))

/-! ### Keyword lists of `src/ingestion/job_cleaner.py` (transcribed verbatim) -/

/-- `RELEVANT_SECTION_KEYWORDS` of `job_cleaner.py`. -/
def RELEVANT_SECTION_KEYWORDS : List Str :=
  [ strL "responsibilities", strL "requirements", strL "qualifications",
    strL "required", strL "require",
    strL "preferred", strL "skills", strL "experience", strL "education",
    strL "what you\x27ll do",
    strL "what you will do", strL "what you need", strL "you will",
    strL "must have",
    strL "should have", strL "nice to have", strL "technical skills",
    strL "key responsibilities",
    strL "core responsibilities", strL "essential", strL "desired",
    strL "minimum qualifications",
    strL "basic qualifications", strL "preferred qualifications",
    strL "technical requirements",
    strL "role requirements", strL "job requirements", strL "candidate profile" ]

/-- `IRRELEVANT_SECTION_KEYWORDS` of `job_cleaner.py`. -/
def IRRELEVANT_SECTION_KEYWORDS : List Str :=
  [ strL "about us", strL "about the company", strL "company overview",
    strL "who we are", strL "our mission",
    strL "our values", strL "our culture", strL "why work here",
    strL "why join",
    strL "benefits", strL "compensation", strL "salary", strL "perks",
    strL "what we offer", strL "package",
    strL "equal opportunity", strL "eeo", strL "diversity",
    strL "application process", strL "apply now",
    strL "how to apply", strL "contact", strL "location details",
    strL "office location",
    strL "company description", strL "about the role", strL "team",
    strL "our team" ]

/-- `REQUIRED_INDICATORS` of `job_cleaner.py`. -/
def REQUIRED_INDICATORS : List Str :=
  [ strL "required", strL "must have", strL "must-have", strL "essential",
    strL "mandatory", strL "minimum",
    strL "basic qualifications", strL "minimum qualifications",
    strL "requirements:",
    strL "required qualifications", strL "required skills", strL "you must",
    strL "you will need" ]

/-- `PREFERRED_INDICATORS` of `job_cleaner.py`. -/
def PREFERRED_INDICATORS : List Str :=
  [ strL "preferred", strL "nice to have", strL "nice-to-have", strL "bonus",
    strL "plus", strL "desired",
    strL "ideal", strL "preferred qualifications", strL "preferred skills",
    strL "would be a plus",
    strL "it would be great if", strL "we\x27d love if", strL "additional",
    strL "optional" ]

/-! ### `extract_requirements_section` -/

/-- The value of the `current_section` loop variable: `"required"`,
`"preferred"` or `"general"` (the `None` initial state is `Option.none`). -/
inductive Section where
  | required
  | preferred
  | general
deriving DecidableEq, Repr

/-- The loop state of the `for` loop in `extract_requirements_section`:
the three accumulator lists and the three control variables. -/
structure SplitState where
  relevant : List Str
  requiredSec : List Str
  preferredSec : List Str
  current : Option Section
  skip : Bool
  inRelevant : Bool
deriving DecidableEq, Repr

/-- Initial loop state of `extract_requirements_section`. -/
def initState : SplitState :=
  { relevant := [], requiredSec := [], preferredSec := [],
    current := none, skip := false, inRelevant := false }

/-- One iteration of the `for` loop of `extract_requirements_section`
(`job_cleaner.py` lines 67-105): blank lines are skipped, a line containing an
irrelevant-section keyword sets `skip` and is dropped, a line containing a
relevant-section keyword clears `skip` and (re)classifies the current section,
and any line reached while not skipping with a relevant/classified section
active is appended to the cleaned output and to its section's output. -/
def processLine (st : SplitState) (line : Str) : SplitState :=
  let lineLower := strip (lowerStr line)
  if strip line = [] then st
  else if containsAny lineLower IRRELEVANT_SECTION_KEYWORDS then
    { st with skip := true, inRelevant := false }
  else
    let st1 :=
      if containsAny lineLower RELEVANT_SECTION_KEYWORDS then
        let cur :=
          if containsAny lineLower REQUIRED_INDICATORS then Section.required
          else if containsAny lineLower PREFERRED_INDICATORS then
            Section.preferred
          else Section.general
        { st with skip := false, inRelevant := true, current := some cur }
      else st
    if !st1.skip && (st1.inRelevant || st1.current.isSome) then
      { st1 with
        relevant := st1.relevant ++ [line]
        requiredSec :=
          if st1.current = some Section.required ∨
              st1.current = some Section.general then
            st1.requiredSec ++ [line]
          else st1.requiredSec
        preferredSec :=
          if st1.current = some Section.preferred then
            st1.preferredSec ++ [line]
          else st1.preferredSec }
    else st1

/-- `extract_middle_section` of `job_cleaner.py`: with fewer than 10 non-blank
lines return the text unchanged, otherwise keep the non-blank lines with the
first `n / 5` and last `n / 5` dropped (Python slice `lines[n//5 : n - n//5]`). -/
def extract_middle_section (text : Str) : Str :=
  let lines := (splitNl text).filter (fun l => strip l ≠ [])
  if lines.length < 10 then text
  else
    let s := lines.length / 5
    joinNl ((lines.drop s).take (lines.length - s - s))

/-- The cleaned text produced by the line-by-line pass alone
(`'\n'.join(relevant_lines)` at `job_cleaner.py` line 108), before the
length-100 fallback is considered. -/
def line_extracted_cleaned (job_text : Str) : Str :=
  joinNl ((splitNl job_text).foldl processLine initState).relevant

/-- The result record of `extract_requirements_section` (the Python dict with
keys `cleaned_text`, `required_skills`, `preferred_skills`, `full_text`). -/
structure JobSections where
  cleaned_text : Str
  required_skills : Str
  preferred_skills : Str
  full_text : Str
deriving DecidableEq, Repr

/-- `extract_requirements_section` of `job_cleaner.py`. The regex-based backup
separator `regex_separate_requirements` is taken as the parameter `rsep`
(returning the pair `(required, preferred)`, each `""` when its patterns do not
match); it is consulted only when both section accumulators ended up empty, and
every theorem below is proved for an arbitrary `rsep`, so no property here
depends on its behavior. Note the Python `sections.get("required", cleaned_text)`
default is dead code, since `regex_separate_requirements` always returns both
keys; the model therefore uses the returned pair directly. -/
def extract_requirements_section (rsep : Str → Str × Str) (job_text : Str) :
    JobSections :=
  let lines := splitNl job_text
  let st := lines.foldl processLine initState
  let cleaned0 := joinNl st.relevant
  let required0 := joinNl st.requiredSec
  let preferred0 := joinNl st.preferredSec
  let cleaned1 :=
    if cleaned0.length < 100 then extract_middle_section job_text else cleaned0
  let required1 :=
    if cleaned0.length < 100 then cleaned1 else required0
  let requiredT :=
    if required1 = [] ∧ preferred0 = [] then (rsep job_text).1 else required1
  let preferredT :=
    if required1 = [] ∧ preferred0 = [] then (rsep job_text).2 else preferred0
  { cleaned_text := cleaned1, required_skills := requiredT,
    preferred_skills := preferredT, full_text := job_text }

/-- A stand-in for `regex_separate_requirements` that never matches; used only
to instantiate `rsep` in concrete evaluations whose control flow never reaches
the regex backup. -/
def rsepNone : Str → Str × Str := fun _ => ([], [])

/-! ### `calculate_keyword_match` (`src/matching/keyword_matcher.py`) -/

/-- The result of `extract_keywords`: the three keyword sets (a Python dict of
sets, modeled as finite sets of the matched vocabulary terms). -/
structure SkillSet where
  technical_skills : Finset String
  education : Finset String
  experience_level : Finset String
deriving DecidableEq

/-- The dict returned by `calculate_keyword_match` (`keyword_matcher.py` lines
284-300). All float fields are exact rationals here. -/
structure KeywordMatchResult where
  technical_score : ℚ
  required_skill_score : ℚ
  preferred_skill_score : ℚ
  education_score : ℚ
  experience_score : ℚ
  overall_keyword_score : ℚ
  matched_skills : List String
  missing_skills : List String
  missing_required : List String
  missing_preferred : List String
  total_resume_skills : ℕ
  total_job_skills : ℕ
  total_required_skills : ℕ
  total_preferred_skills : ℕ
deriving DecidableEq

/-- The positional 70/30 fallback split of `calculate_keyword_match`
(`keyword_matcher.py` lines 213-217 and 219-223): list the job's technical
skills, split at the 70% index, first part required and rest preferred; with
split index 0 the whole set is required and preferred is empty.

`order` is the list `all_job_skills = list(job_skills)` — Python's set
iteration order made explicit (the theorems assume `order.Nodup` and
`order.toFinset = job_skills`, which any set iteration satisfies).
`split_point` models `int(len(all_job_skills) * 0.7)`; for every list length
below 330 the double-precision product rounds so that this equals
`7 * n / 10` in integer arithmetic (the first length where the two differ is
330, far beyond the ~230-term vocabulary that bounds `job_skills`). -/
def positional_split (job_skills : Finset String) (order : List String) :
    Finset String × Finset String :=
  let split_point := 7 * order.length / 10
  if split_point > 0 then
    ((order.take split_point).toFinset, (order.drop split_point).toFinset)
  else (job_skills, ∅)

/-- The required/preferred split performed at the top of
`calculate_keyword_match` (`keyword_matcher.py` lines 199-223). The keyword
extractor `extract_keywords` is taken as the parameter `extract`; every theorem
below holds for an arbitrary extractor, so no property proved here depends on
its vocabulary or regex behavior. -/
def split_job_skills (extract : Str → SkillSet) (job_skills : Finset String)
    (order : List String) (job_sections : Option JobSections) :
    Finset String × Finset String :=
  match job_sections with
  | some js =>
    if js.required_skills ≠ [] ∨ js.preferred_skills ≠ [] then
      let required_skills := (extract js.required_skills).technical_skills
      let preferred_skills := (extract js.preferred_skills).technical_skills
      if required_skills = ∅ ∧ preferred_skills = ∅ then
        positional_split job_skills order
      else (required_skills, preferred_skills)
    else positional_split job_skills order
  | none => positional_split job_skills order

/-- `calculate_keyword_match` of `keyword_matcher.py` (lines 183-300), with the
keyword extractor and the set-iteration order passed explicitly (see
`split_job_skills` and `positional_split`). -/
def calculate_keyword_match (extract : Str → SkillSet) (order : List String)
    (resume_keywords job_keywords : SkillSet)
    (job_sections : Option JobSections) : KeywordMatchResult :=
  let resume_skills := resume_keywords.technical_skills
  let job_skills := job_keywords.technical_skills
  let rp := split_job_skills extract job_skills order job_sections
  let required_skills := rp.1
  let preferred_skills := rp.2
  let matched_required := resume_skills ∩ required_skills
  let matched_preferred := resume_skills ∩ preferred_skills
  let missing_required := required_skills \ resume_skills
  let missing_preferred := preferred_skills \ resume_skills
  let required_score : ℚ :=
    if required_skills ≠ ∅ then
      (matched_required.card : ℚ) / (required_skills.card : ℚ)
    else 0.8
  let preferred_score : ℚ :=
    if preferred_skills ≠ ∅ then
      (matched_preferred.card : ℚ) / (preferred_skills.card : ℚ)
    else 1.0
  let technical_base : ℚ := 0.80 * required_score + 0.20 * preferred_score
  let technical_score : ℚ :=
    if missing_required.card > 3 then technical_base * 0.85 else technical_base
  let resume_edu := resume_keywords.education
  let job_edu := job_keywords.education
  let education_score : ℚ :=
    if resume_edu ≠ ∅ ∧ job_edu ≠ ∅ then
      if resume_edu ∩ job_edu ≠ ∅ then 1.0 else 0.5
    else if job_edu = ∅ then 1.0
    else 0.5
  let resume_exp := resume_keywords.experience_level
  let job_exp := job_keywords.experience_level
  let experience_score : ℚ :=
    if resume_exp ≠ ∅ ∧ job_exp ≠ ∅ then
      if resume_exp ∩ job_exp ≠ ∅ then 1.0 else 0.7
    else 0.8
  let overall : ℚ :=
    0.70 * technical_score + 0.20 * education_score + 0.10 * experience_score
  { technical_score := technical_score
    required_skill_score := required_score
    preferred_skill_score := preferred_score
    education_score := education_score
    experience_score := experience_score
    overall_keyword_score := overall
    matched_skills := (matched_required ∪ matched_preferred).sort (· ≤ ·)
    missing_skills := (missing_required ∪ missing_preferred).sort (· ≤ ·)
    missing_required := missing_required.sort (· ≤ ·)
    missing_preferred := missing_preferred.sort (· ≤ ·)
    total_resume_skills := resume_skills.card
    total_job_skills := job_skills.card
    total_required_skills := required_skills.card
    total_preferred_skills := preferred_skills.card }

/-! ### `calculate_match_score` and `get_top_matching_chunks`
(`src/matching/similarity.py`) -/

/-- An embedding vector (a numpy array of floats, modeled as exact rationals). -/
abbrev Vec := List ℚ

/-- The dot product of two vectors (componentwise, as `numpy` computes it for
equal-length inputs; the claims only involve equal-length vectors). -/
def dotp : Vec → Vec → ℚ
  | a :: x, b :: y => a * b + dotp x y
  | _, _ => 0

/-- The squared Euclidean norm of a vector. -/
def sqNorm (v : Vec) : ℚ := dotp v v

/-- `calculate_match_score` of `similarity.py` (lines 4-22): sklearn's
`cosine_similarity` of the two vectors. sklearn normalizes each row by its
norm, substituting 1 for a zero norm (`norms[norms == 0.0] = 1.0` in
`sklearn.preprocessing.normalize`), and returns the dot product of the
normalized rows — so the score is `dot x y / (n x * n y)` with
`n v = 1` when `‖v‖ = 0` and `n v = ‖v‖` otherwise. The function is total:
no exception is raised for zero vectors. -/
noncomputable def calculate_match_score (x y : Vec) : ℝ :=
  let nx : ℝ := if sqNorm x = 0 then 1 else Real.sqrt (sqNorm x : ℚ)
  let ny : ℝ := if sqNorm y = 0 then 1 else Real.sqrt (sqNorm y : ℚ)
  ((dotp x y : ℚ) : ℝ) / (nx * ny)

/-- One entry of the list built by `get_top_matching_chunks`: the Python dict
`{"chunk": ..., "score": ..., "index": ...}`. -/
structure ScoredChunk where
  chunk : String
  score : ℝ
  index : ℕ

/-- The scored list built by the loop of `get_top_matching_chunks`
(`similarity.py` lines 38-46): one entry per embedding, in input order,
carrying the original index. `resume_chunks[i]` is modeled with a default
(the source raises `IndexError` when the chunk list is shorter than the
embedding list; the claims assume equal lengths, where the two agree). -/
noncomputable def score_list (resume_chunks : List String)
    (resume_embeddings : List Vec) (job_embedding : Vec) : List ScoredChunk :=
  resume_embeddings.enum.map fun p =>
    { chunk := resume_chunks.getD p.1 ""
      score := calculate_match_score p.2 job_embedding
      index := p.1 }

/-- Stable insertion of an element into a descending-by-score list: the new
element passes every element whose score is not smaller, so among equal scores
it lands after all earlier-inserted ones. -/
noncomputable def sInsert (a : ScoredChunk) :
    List ScoredChunk → List ScoredChunk
  | [] => [a]
  | b :: l => if b.score < a.score then a :: b :: l else b :: sInsert a l

/-- `scores.sort(key=lambda x: x["score"], reverse=True)` (`similarity.py`
line 49): Python's `list.sort` is a stable sort, so sorting descending by
score is realized by inserting the elements in input order with `sInsert`. -/
noncomputable def sortScores (l : List ScoredChunk) : List ScoredChunk :=
  l.foldl (fun acc x => sInsert x acc) []

/-- `get_top_matching_chunks` of `similarity.py` (lines 25-51). -/
noncomputable def get_top_matching_chunks (resume_chunks : List String)
    (resume_embeddings : List Vec) (job_embedding : Vec) (top_k : ℕ) :
    List ScoredChunk :=
  (sortScores (score_list resume_chunks resume_embeddings job_embedding)).take
    top_k

/-! ### Verdict banding (`src/app/copy.py` lines 296-311) -/

/-- The `match_category` banding of `copy.py`: the verdict label determined
from the hybrid score by the chained `if hybrid_score >= 0.85 / 0.71 / 0.40`
thresholds. -/
def match_category (hybrid_score : ℚ) : String :=
  if hybrid_score ≥ 0.85 then "Excellent Match"
  else if hybrid_score ≥ 0.71 then "Good Match"
  else if hybrid_score ≥ 0.40 then "Fair Match"
  else "Low Match"

/-- The job text of claim C2:
`"Requirements:\nPython required\n\nPreferred:\nDocker nice to have"`. -/
def c2_text : Str :=
  strL "Requirements:\nPython required\n\nPreferred:\nDocker nice to have"

/-- The job text of the counterexample to claim C3: five plain non-blank
lines, none containing any section keyword. -/
def c3_text : Str := strL "aaa\nbbb\nccc\nddd\neee"

/-- The strict ranking order claimed for the output of
`get_top_matching_chunks`: strictly larger score first, and among equal
scores the smaller original chunk index first (the stability guarantee of
Python's `list.sort`). -/
def RankedBefore (a b : ScoredChunk) : Prop :=
  b.score < a.score ∨ (a.score = b.score ∧ a.index < b.index)

/-! ## Helper lemmas -/

/-- Dot product against an all-zero left vector vanishes. -/
lemma dotp_zero_left (x y : Vec) (h : ∀ a ∈ x, a = 0) : dotp x y = 0 := by
  induction x generalizing y with
  | nil => cases y <;> simp [dotp]
  | cons a x ih =>
    cases y with
    | nil => simp [dotp]
    | cons b y =>
      have ha : a = 0 := h a (by simp)
      have hx : ∀ c ∈ x, c = 0 := fun c hc => h c (by simp [hc])
      simp [dotp, ha, ih y hx]

/-- The dot product is symmetric. -/
lemma dotp_comm (x y : Vec) : dotp x y = dotp y x := by
  induction x generalizing y with
  | nil => cases y <;> simp [dotp]
  | cons a x ih =>
    cases y with
    | nil => simp [dotp]
    | cons b y => simp [dotp, ih y, mul_comm]

/-- Bounds for the ratio-or-default scores of `calculate_keyword_match`. -/
lemma ratio_score_bounds (m s : Finset String) (hm : m ⊆ s) (dflt : ℚ)
    (h0 : 0 ≤ dflt) (h1 : dflt ≤ 1) :
    0 ≤ (if s ≠ ∅ then (m.card : ℚ) / (s.card : ℚ) else dflt)
    ∧ (if s ≠ ∅ then (m.card : ℚ) / (s.card : ℚ) else dflt) ≤ 1 := by
  split_ifs with hs
  · have hpos : (0 : ℚ) < (s.card : ℚ) := by
      exact_mod_cast Finset.card_pos.mpr (Finset.nonempty_iff_ne_empty.mpr hs)
    constructor
    · positivity
    · rw [div_le_one hpos]
      exact_mod_cast Finset.card_le_card hm
  · exact ⟨h0, h1⟩

/-- The 0.80/0.20 combination of two `[0, 1]` scores, with or without the
0.85 penalty factor, stays in `[0, 1]`. -/
lemma penalty_bounds (x y : ℚ) (c : Prop) [Decidable c]
    (hx0 : 0 ≤ x) (hx1 : x ≤ 1) (hy0 : 0 ≤ y) (hy1 : y ≤ 1) :
    0 ≤ (if c then (0.80 * x + 0.20 * y) * 0.85 else 0.80 * x + 0.20 * y)
    ∧ (if c then (0.80 * x + 0.20 * y) * 0.85 else 0.80 * x + 0.20 * y)
        ≤ 1 := by
  split_ifs <;> constructor <;> nlinarith

/-! ## The claims -/

/-- Claim C1, counterexample. The claim states that `calculate_match_score`
raises `EmptyVectorError` on an all-zero vector and never silently returns 0.
In the source there is no such error anywhere: the function delegates to
sklearn's `cosine_similarity`, which substitutes 1 for a zero norm; at the
all-zero resume vector `[0, 0, 0]` it silently returns the legitimate-looking
score 0. -/
theorem claim_C1_counterexample :
    calculate_match_score [0, 0, 0] [3, 4, 0] = 0 := by
  have h : dotp [(0 : ℚ), 0, 0] [3, 4, 0] = 0 := by norm_num [dotp]
  unfold calculate_match_score
  rw [h]
  simp

/-- Claim C1, amended: whenever either embedding vector is all-zero,
`calculate_match_score` raises nothing (it is total) and silently returns the
similarity score 0, because sklearn's normalization substitutes 1 for the zero
norm and the dot product against an all-zero vector is 0. -/
theorem claim_C1_amended (x y : Vec)
    (h : (∀ a ∈ x, a = 0) ∨ (∀ a ∈ y, a = 0)) :
    calculate_match_score x y = 0 := by
  have hd : dotp x y = 0 := by
    rcases h with h | h
    · exact dotp_zero_left x y h
    · rw [dotp_comm]; exact dotp_zero_left y x h
  unfold calculate_match_score
  rw [hd]
  simp

/-- Witness for `claim_C1_amended` at the concrete all-zero vector `[0, 0]`. -/
theorem claim_C1_witness : calculate_match_score [0, 0] [1, 1] = 0 :=
  claim_C1_amended [0, 0] [1, 1] (Or.inl (by simp))

/-- Claim C4: the verdict band is determined from the hybrid score with
lower-bound-inclusive thresholds — ≥ 0.85 Excellent, ≥ 0.71 Good, ≥ 0.40
Fair, below that Low. -/
theorem claim_C4 (s : ℚ) :
    (0.85 ≤ s → match_category s = "Excellent Match")
    ∧ (0.71 ≤ s ∧ s < 0.85 → match_category s = "Good Match")
    ∧ (0.40 ≤ s ∧ s < 0.71 → match_category s = "Fair Match")
    ∧ (s < 0.40 → match_category s = "Low Match") := by
  unfold match_category
  refine ⟨fun h => ?_, fun h => ?_, fun h => ?_, fun h => ?_⟩
  · rw [if_pos h]
  · rw [if_neg (not_le.mpr h.2), if_pos h.1]
  · rw [if_neg (not_le.mpr (by linarith [h.2])),
      if_neg (not_le.mpr h.2), if_pos h.1]
  · rw [if_neg (not_le.mpr (by linarith)), if_neg (not_le.mpr (by linarith)),
      if_neg (not_le.mpr h)]

/-- Witness for `claim_C4` at the four band boundaries. -/
theorem claim_C4_witness :
    match_category 0.85 = "Excellent Match"
    ∧ match_category 0.71 = "Good Match"
    ∧ match_category 0.40 = "Fair Match"
    ∧ match_category 0.399999 = "Low Match" :=
  ⟨(claim_C4 0.85).1 (by norm_num),
   (claim_C4 0.71).2.1 ⟨by norm_num, by norm_num⟩,
   (claim_C4 0.40).2.2.1 ⟨by norm_num, by norm_num⟩,
   (claim_C4 0.399999).2.2.2 (by norm_num)⟩

/-- Claim C5: whenever the required/preferred split comes out empty on both
sides, `calculate_keyword_match` uses the neutral defaults
`required_score = 0.8` and `preferred_score = 1.0`, and the returned technical
score is exactly `0.80 * 0.8 + 0.20 * 1.0 = 0.84`. -/
theorem claim_C5 (extract : Str → SkillSet) (order : List String)
    (resume_keywords job_keywords : SkillSet)
    (job_sections : Option JobSections)
    (h : split_job_skills extract job_keywords.technical_skills order
        job_sections = (∅, ∅)) :
    (calculate_keyword_match extract order resume_keywords job_keywords
        job_sections).required_skill_score = 0.8
    ∧ (calculate_keyword_match extract order resume_keywords job_keywords
        job_sections).preferred_skill_score = 1.0
    ∧ (calculate_keyword_match extract order resume_keywords job_keywords
        job_sections).technical_score = 0.84 := by
  unfold calculate_keyword_match
  simp only [h]
  norm_num

/-- Witness for `claim_C5`: no sections and an empty job skill set force the
empty/empty split, giving a technical score of exactly 0.84. -/
theorem claim_C5_witness :
    (calculate_keyword_match (fun _ => ⟨∅, ∅, ∅⟩) [] ⟨∅, ∅, ∅⟩ ⟨∅, ∅, ∅⟩
        none).required_skill_score = 0.8
    ∧ (calculate_keyword_match (fun _ => ⟨∅, ∅, ∅⟩) [] ⟨∅, ∅, ∅⟩ ⟨∅, ∅, ∅⟩
        none).preferred_skill_score = 1.0
    ∧ (calculate_keyword_match (fun _ => ⟨∅, ∅, ∅⟩) [] ⟨∅, ∅, ∅⟩ ⟨∅, ∅, ∅⟩
        none).technical_score = 0.84 :=
  claim_C5 (fun _ => ⟨∅, ∅, ∅⟩) [] ⟨∅, ∅, ∅⟩ ⟨∅, ∅, ∅⟩ none rfl

/-- Claim C6: the returned technical score is the 0.80/0.20 weighted
combination of the returned required and preferred sub-scores, multiplied by
0.85 exactly when more than 3 required skills are missing, with no other
adjustment and no clamping. -/
theorem claim_C6 (extract : Str → SkillSet) (order : List String)
    (resume_keywords job_keywords : SkillSet)
    (job_sections : Option JobSections) :
    let r := calculate_keyword_match extract order resume_keywords job_keywords
      job_sections
    let missing_required := (split_job_skills extract
      job_keywords.technical_skills order job_sections).1 \
      resume_keywords.technical_skills
    (3 < missing_required.card →
      r.technical_score =
        (0.80 * r.required_skill_score + 0.20 * r.preferred_skill_score) * 0.85)
    ∧ (missing_required.card ≤ 3 →
      r.technical_score =
        0.80 * r.required_skill_score + 0.20 * r.preferred_skill_score) := by
  unfold calculate_keyword_match
  simp only
  constructor <;> intro hc
  · rw [if_pos hc]
  · rw [if_neg (by omega)]

/-- Witness for `claim_C6`: with six job skills, no sections and an empty
resume, the fallback marks four skills required, all missing, so the 0.85
penalty applies. -/
theorem claim_C6_witness :
    3 < ((split_job_skills (fun _ => ⟨∅, ∅, ∅⟩)
        {"a", "b", "c", "d", "e", "f"} ["a", "b", "c", "d", "e", "f"] none).1
        \ (∅ : Finset String)).card
    ∧ (calculate_keyword_match (fun _ => ⟨∅, ∅, ∅⟩)
        ["a", "b", "c", "d", "e", "f"] ⟨∅, ∅, ∅⟩
        ⟨{"a", "b", "c", "d", "e", "f"}, ∅, ∅⟩ none).technical_score =
      (0.80 * (calculate_keyword_match (fun _ => ⟨∅, ∅, ∅⟩)
        ["a", "b", "c", "d", "e", "f"] ⟨∅, ∅, ∅⟩
        ⟨{"a", "b", "c", "d", "e", "f"}, ∅, ∅⟩ none).required_skill_score
       + 0.20 * (calculate_keyword_match (fun _ => ⟨∅, ∅, ∅⟩)
        ["a", "b", "c", "d", "e", "f"] ⟨∅, ∅, ∅⟩
        ⟨{"a", "b", "c", "d", "e", "f"}, ∅, ∅⟩ none).preferred_skill_score)
        * 0.85 := by
  have hcard : 3 < ((split_job_skills (fun _ => ⟨∅, ∅, ∅⟩)
      {"a", "b", "c", "d", "e", "f"} ["a", "b", "c", "d", "e", "f"] none).1
      \ (∅ : Finset String)).card := by decide
  exact ⟨hcard,
    (claim_C6 (fun _ => ⟨∅, ∅, ∅⟩) ["a", "b", "c", "d", "e", "f"] ⟨∅, ∅, ∅⟩
      ⟨{"a", "b", "c", "d", "e", "f"}, ∅, ∅⟩ none).1 hcard⟩

/-- Claim C7: for every input the returned technical score lies in `[0, 1]`:
both sub-scores are ratios of an intersection's size to the full size (or a
default in `[0, 1]`), so the 0.80/0.20 combination is in `[0, 1]`, and the
0.85 penalty only shrinks it. -/
theorem claim_C7 (extract : Str → SkillSet) (order : List String)
    (resume_keywords job_keywords : SkillSet)
    (job_sections : Option JobSections) :
    0 ≤ (calculate_keyword_match extract order resume_keywords job_keywords
        job_sections).technical_score
    ∧ (calculate_keyword_match extract order resume_keywords job_keywords
        job_sections).technical_score ≤ 1 := by
  unfold calculate_keyword_match
  simp only
  have hr := ratio_score_bounds
    (resume_keywords.technical_skills ∩ (split_job_skills extract
      job_keywords.technical_skills order job_sections).1)
    (split_job_skills extract job_keywords.technical_skills order
      job_sections).1
    Finset.inter_subset_right 0.8 (by norm_num) (by norm_num)
  have hp := ratio_score_bounds
    (resume_keywords.technical_skills ∩ (split_job_skills extract
      job_keywords.technical_skills order job_sections).2)
    (split_job_skills extract job_keywords.technical_skills order
      job_sections).2
    Finset.inter_subset_right 1.0 (by norm_num) (by norm_num)
  exact penalty_bounds _ _ _ hr.1 hr.2 hp.1 hp.2

/-- Claim C10: the positional 70/30 fallback split (the path taken whenever
sections are absent or yield no skills) splits the job's technical skill set
into disjoint required/preferred parts whose union is the full set, and with
at most one job skill the split index is 0, putting everything in required
and leaving preferred empty. -/
theorem claim_C10 (job_skills : Finset String) (order : List String)
    (hnd : order.Nodup) (hord : order.toFinset = job_skills) :
    (∀ extract, split_job_skills extract job_skills order none =
      positional_split job_skills order)
    ∧ (positional_split job_skills order).1 ∪
        (positional_split job_skills order).2 = job_skills
    ∧ Disjoint (positional_split job_skills order).1
        (positional_split job_skills order).2
    ∧ (order.length ≤ 1 →
        positional_split job_skills order = (job_skills, ∅)) := by
  have hsplit : ∀ k, (order.take k).toFinset ∪ (order.drop k).toFinset
      = job_skills := by
    intro k
    rw [← List.toFinset_append, List.take_append_drop, hord]
  have hdisj : ∀ k,
      Disjoint (order.take k).toFinset (order.drop k).toFinset := by
    intro k
    rw [Finset.disjoint_left]
    intro a ha hb
    rw [List.mem_toFinset] at ha hb
    exact (List.disjoint_take_drop hnd (le_refl _)) ha hb
  refine ⟨fun _ => rfl, ?_, ?_, ?_⟩ <;> unfold positional_split <;> simp only
  · split_ifs with hs
    · exact hsplit _
    · simp
  · split_ifs with hs
    · exact hdisj _
    · simp
  · intro hlen
    rw [if_neg (by omega)]

/-- Witness for `claim_C10` on the one-element skill set `{"python"}`. -/
theorem claim_C10_witness :
    (∀ extract, split_job_skills extract {"python"} ["python"] none =
      positional_split {"python"} ["python"])
    ∧ (positional_split {"python"} ["python"]).1 ∪
        (positional_split {"python"} ["python"]).2 = {"python"}
    ∧ Disjoint (positional_split {"python"} ["python"]).1
        (positional_split {"python"} ["python"]).2
    ∧ (["python"].length ≤ 1 →
        positional_split {"python"} ["python"] = ({"python"}, ∅)) :=
  claim_C10 {"python"} ["python"] (by decide) (by decide)

/-- Claim C2: on the four-line job text of `c2_text`, the splitter classifies
"Python required" as required (it lands in the loop's required section and in
the returned required text) and "Docker nice to have" as preferred, and the
returned cleaned text contains both lines. The result is independent of the
regex backup `rsep`, which is never consulted on this input. -/
theorem claim_C2 (rsep : Str → Str × Str) :
    strL "Python required" ∈
      ((splitNl c2_text).foldl processLine initState).requiredSec
    ∧ strL "Docker nice to have" ∈
      ((splitNl c2_text).foldl processLine initState).preferredSec
    ∧ strL "Python required" ∈
      splitNl (extract_requirements_section rsep c2_text).required_skills
    ∧ strL "Docker nice to have" ∈
      splitNl (extract_requirements_section rsep c2_text).preferred_skills
    ∧ strL "Python required" ∈
      splitNl (extract_requirements_section rsep c2_text).cleaned_text
    ∧ strL "Docker nice to have" ∈
      splitNl (extract_requirements_section rsep c2_text).cleaned_text := by
  have h : extract_requirements_section rsep c2_text =
      extract_requirements_section rsepNone c2_text := rfl
  rw [h]
  decide

/-- Joining a nonempty list of nonempty lines yields a nonempty text. -/
lemma joinNl_ne_nil (l : List Str) (h0 : l ≠ []) (h1 : ∀ s ∈ l, s ≠ []) :
    joinNl l ≠ [] := by
  match l with
  | [s] => exact h1 s (by simp)
  | s :: s' :: r => simp [joinNl]

/-- `extract_middle_section` never returns the empty string on nonempty
input: with fewer than 10 non-blank lines it returns the input itself, and
otherwise it joins a nonempty run of non-blank (hence nonempty) lines. -/
lemma extract_middle_section_ne_nil (t : Str) (h : t ≠ []) :
    extract_middle_section t ≠ [] := by
  unfold extract_middle_section
  simp only
  split_ifs with hlen
  · exact h
  · apply joinNl_ne_nil
    · intro hnil
      have hc := congrArg List.length hnil
      rw [List.length_take, List.length_drop] at hc
      simp only [List.length_nil] at hc
      omega
    · intro s hs
      have h1 : s ∈ (splitNl t).filter (fun l => strip l ≠ []) :=
        List.mem_of_mem_drop (List.mem_of_mem_take hs)
      have h2 : strip s ≠ [] := of_decide_eq_true (List.mem_filter.mp h1).2
      intro hsnil
      exact h2 (by rw [hsnil]; rfl)

/-- Claim C3, counterexample. On `c3_text` the line-by-line pass extracts
nothing (cleaned length 0 < 100), the input has five non-blank lines, and the
middle three-fifths (first and last `5 / 5 = 1` non-blank lines dropped) would
be `"bbb\nccc\nddd"` — but `extract_requirements_section` returns the whole
input as cleaned and required text, because `extract_middle_section` returns
the text unchanged whenever there are fewer than 10 non-blank lines. -/
theorem claim_C3_counterexample :
    (line_extracted_cleaned c3_text).length < 100
    ∧ ((splitNl c3_text).filter fun l => strip l ≠ []) =
        [strL "aaa", strL "bbb", strL "ccc", strL "ddd", strL "eee"]
    ∧ joinNl (([strL "aaa", strL "bbb", strL "ccc", strL "ddd",
        strL "eee"].drop 1).take 3) = strL "bbb\nccc\nddd"
    ∧ (extract_requirements_section rsepNone c3_text).cleaned_text = c3_text
    ∧ (extract_requirements_section rsepNone c3_text).required_skills = c3_text
    ∧ c3_text ≠ strL "bbb\nccc\nddd" := by decide

/-- Claim C3, amended: whenever the line-by-line extraction produces a cleaned
text shorter than 100 characters, `extract_requirements_section` discards it
and returns `extract_middle_section` of the input as both the cleaned and the
required text — i.e. the middle non-blank lines with the first and last
`n / 5` dropped when there are `n ≥ 10` non-blank lines, but the entire
original text (not the middle three-fifths) when there are fewer than 10
non-blank lines. Stated for nonempty input; the regex backup is then
unreachable and the result is independent of `rsep`. -/
theorem claim_C3_amended (rsep : Str → Str × Str) (job_text : Str)
    (hshort : (line_extracted_cleaned job_text).length < 100)
    (hne : job_text ≠ []) :
    (extract_requirements_section rsep job_text).cleaned_text =
      extract_middle_section job_text
    ∧ (extract_requirements_section rsep job_text).required_skills =
      extract_middle_section job_text := by
  have hm : extract_middle_section job_text ≠ [] :=
    extract_middle_section_ne_nil job_text hne
  unfold line_extracted_cleaned at hshort
  unfold extract_requirements_section
  simp only [if_pos hshort]
  rw [if_neg (fun hand => hm hand.1)]
  exact ⟨trivial, rfl⟩

/-- Witness for `claim_C3_amended` at the two-line input `"xxx\nyyy"`
(line extraction finds nothing, so the fallback returns the whole text). -/
theorem claim_C3_witness :
    (extract_requirements_section rsepNone (strL "xxx\nyyy")).cleaned_text =
      extract_middle_section (strL "xxx\nyyy")
    ∧ (extract_requirements_section rsepNone
        (strL "xxx\nyyy")).required_skills =
      extract_middle_section (strL "xxx\nyyy") :=
  claim_C3_amended rsepNone (strL "xxx\nyyy") (by decide) (by decide)

/-- Lines produced by `splitNl` contain no newline character. -/
lemma mem_splitNl_no_nl (t : Str) (s : Str) (hs : s ∈ splitNl t) :
    '\n' ∉ s := by
  induction t generalizing s with
  | nil =>
    simp only [splitNl, List.mem_singleton] at hs
    simp [hs]
  | cons c rest ih =>
    simp only [splitNl] at hs
    by_cases hc : c = '\n'
    · rw [if_pos hc] at hs
      rcases List.mem_cons.mp hs with h | h
      · simp [h]
      · exact ih s h
    · rw [if_neg hc] at hs
      rcases hsp : splitNl rest with _ | ⟨l, ls⟩
      · rw [hsp] at hs
        simp only [List.mem_singleton] at hs
        subst hs
        exact fun hmem => hc (List.mem_singleton.mp hmem).symm
      · rw [hsp] at hs
        rcases List.mem_cons.mp hs with h | h
        · subst h
          intro hmem
          rcases List.mem_cons.mp hmem with h' | h'
          · exact hc h'.symm
          · exact ih l (by rw [hsp]; exact List.mem_cons_self l ls) h'
        · exact ih s (by rw [hsp]; exact List.mem_cons_of_mem l h)

/-- Splitting a newline-free text gives back that single line. -/
lemma splitNl_eq_self (s : Str) (h : '\n' ∉ s) : splitNl s = [s] := by
  induction s with
  | nil => rfl
  | cons c rest ih =>
    have hc : c ≠ '\n' := fun he => h (by simp [he])
    have hr : splitNl rest = [rest] :=
      ih (fun hm => h (List.mem_cons_of_mem c hm))
    simp only [splitNl, if_neg hc, hr]

/-- Splitting `s ++ '\n' ++ t` for newline-free `s` peels off the line `s`. -/
lemma splitNl_append_newline (s t : Str) (h : '\n' ∉ s) :
    splitNl (s ++ '\n' :: t) = s :: splitNl t := by
  induction s with
  | nil => simp [splitNl]
  | cons c rest ih =>
    have hc : c ≠ '\n' := fun he => h (by simp [he])
    have hr := ih (fun hm => h (List.mem_cons_of_mem c hm))
    simp only [List.cons_append, splitNl, if_neg hc, List.append_eq, hr]

/-- `splitNl` is a left inverse of `joinNl` on nonempty lists of
newline-free lines. -/
lemma splitNl_joinNl (l : List Str) (h0 : l ≠ [])
    (h1 : ∀ s ∈ l, '\n' ∉ s) : splitNl (joinNl l) = l := by
  induction l with
  | nil => exact absurd rfl h0
  | cons s rest ih =>
    cases rest with
    | nil => exact splitNl_eq_self s (h1 s (by simp))
    | cons s' r =>
      rw [joinNl, splitNl_append_newline s _ (h1 s (by simp)),
        ih (by simp) (fun x hx => h1 x (List.mem_cons_of_mem s hx))]

/-- One loop step either leaves the cleaned-lines accumulator unchanged or
appends exactly the processed line. -/
lemma processLine_relevant (st : SplitState) (line : Str) :
    (processLine st line).relevant = st.relevant
    ∨ (processLine st line).relevant = st.relevant ++ [line] := by
  unfold processLine
  simp only
  split_ifs <;> simp

/-- Over any run of the loop, the cleaned-lines accumulator grows by a
subsequence of the processed lines. -/
lemma foldl_relevant_sublist (lines : List Str) (st : SplitState) :
    ∃ r, (lines.foldl processLine st).relevant = st.relevant ++ r
      ∧ r.Sublist lines := by
  induction lines generalizing st with
  | nil => exact ⟨[], by simp, List.nil_sublist []⟩
  | cons line rest ih =>
    obtain ⟨r, hr, hsub⟩ := ih (processLine st line)
    rcases processLine_relevant st line with h | h
    · refine ⟨r, ?_, hsub.cons _⟩
      rw [List.foldl_cons, hr, h]
    · refine ⟨line :: r, ?_, hsub.cons₂ _⟩
      rw [List.foldl_cons, hr, h, List.append_assoc]
      rfl

/-- Claim C9: for every input job text, the cleaned text returned by
`extract_requirements_section` is, as a list of lines, a subsequence of the
lines of the returned full text (the original input): on the main path the
cleaned lines are a subsequence of the input lines by the loop invariant, and
on the under-100-characters fallback they are either the input itself or a
contiguous run of its non-blank lines. -/
theorem claim_C9 (rsep : Str → Str × Str) (job_text : Str) :
    (splitNl (extract_requirements_section rsep job_text).cleaned_text).Sublist
      (splitNl (extract_requirements_section rsep job_text).full_text) := by
  show (splitNl _).Sublist (splitNl job_text)
  unfold extract_requirements_section
  simp only
  split_ifs with hlen
  · unfold extract_middle_section
    simp only
    split_ifs with h10
    · exact List.Sublist.refl _
    · set lines := (splitNl job_text).filter (fun l => strip l ≠ []) with hl
      set sl := (lines.drop (lines.length / 5)).take
        (lines.length - lines.length / 5 - lines.length / 5) with hsl
      have hsub : sl.Sublist (splitNl job_text) :=
        ((List.take_sublist _ _).trans (List.drop_sublist _ _)).trans
          (List.filter_sublist _)
      have hlensl : sl.length =
          min (lines.length - lines.length / 5 - lines.length / 5)
            (lines.length - lines.length / 5) := by
        rw [hsl, List.length_take, List.length_drop]
      have hne : sl ≠ [] := by
        intro hnil
        rw [hnil] at hlensl
        simp only [List.length_nil] at hlensl
        omega
      rw [splitNl_joinNl sl hne
        (fun s hs => mem_splitNl_no_nl job_text s (hsub.subset hs))]
      exact hsub
  · obtain ⟨r, hr, hsub⟩ := foldl_relevant_sublist (splitNl job_text) initState
    have hr2 : (List.foldl processLine initState (splitNl job_text)).relevant
        = r := hr.trans (show initState.relevant ++ r = r from rfl)
    rw [hr2] at hlen ⊢
    have hne : r ≠ [] := by
      intro hnil
      rw [hnil] at hlen
      exact hlen (by simp [joinNl])
    rw [splitNl_joinNl r hne
      (fun s hs => mem_splitNl_no_nl job_text s (hsub.subset hs))]
    exact hsub

/-- `sInsert` is a permutation of pushing the element on top. -/
lemma sInsert_perm (a : ScoredChunk) (l : List ScoredChunk) :
    (sInsert a l).Perm (a :: l) := by
  induction l with
  | nil => exact List.Perm.refl _
  | cons b t ih =>
    unfold sInsert
    split_ifs with h
    · exact List.Perm.refl _
    · exact (ih.cons b).trans (List.Perm.swap a b t)

/-- Membership in an `sInsert` result. -/
lemma mem_sInsert {x a : ScoredChunk} {l : List ScoredChunk} :
    x ∈ sInsert a l ↔ x = a ∨ x ∈ l := by
  rw [(sInsert_perm a l).mem_iff]
  simp

/-- The insertion fold underlying `sortScores` permutes its input. -/
lemma foldl_sInsert_perm (l acc : List ScoredChunk) :
    (l.foldl (fun acc x => sInsert x acc) acc).Perm (acc ++ l) := by
  induction l generalizing acc with
  | nil => simp
  | cons x t ih =>
    rw [List.foldl_cons]
    refine (ih (sInsert x acc)).trans ?_
    refine (List.Perm.append_right t (sInsert_perm x acc)).trans ?_
    exact List.perm_middle.symm

/-- Sorting preserves the number of entries. -/
lemma sortScores_length (l : List ScoredChunk) :
    (sortScores l).length = l.length :=
  (foldl_sInsert_perm l []).length_eq

/-- Stable insertion into a ranked list of entries with smaller indices keeps
it ranked: the new entry passes exactly the entries with scores not below its
own, so it ends up after every equal score and before every smaller one. -/
lemma sInsert_pairwise (x : ScoredChunk) (acc : List ScoredChunk)
    (hp : acc.Pairwise RankedBefore)
    (hidx : ∀ b ∈ acc, b.index < x.index) :
    (sInsert x acc).Pairwise RankedBefore := by
  induction acc with
  | nil => simp [sInsert]
  | cons b t ih =>
    rw [List.pairwise_cons] at hp
    obtain ⟨hb, hpt⟩ := hp
    unfold sInsert
    split_ifs with h
    · refine List.Pairwise.cons ?_ (List.Pairwise.cons hb hpt)
      intro c hc
      rcases List.mem_cons.mp hc with rfl | hct
      · exact Or.inl h
      · rcases hb c hct with h' | ⟨h'e, _⟩
        · exact Or.inl (h'.trans h)
        · exact Or.inl (h'e ▸ h)
    · have hxt : ∀ c ∈ t, c.index < x.index :=
        fun c hc => hidx c (List.mem_cons_of_mem b hc)
      have hbt : ∀ c ∈ t, RankedBefore b c := hb
      refine List.Pairwise.cons ?_
        (ih hpt hxt)
      intro c hc
      rcases mem_sInsert.mp hc with rfl | hct
      · rcases lt_or_eq_of_le (not_lt.mp h) with hlt | heq
        · exact Or.inl hlt
        · exact Or.inr ⟨heq.symm, hidx b (List.mem_cons_self b t)⟩
      · exact hb c hct

/-- The insertion fold produces a ranked list when fed entries with strictly
increasing indices on top of a ranked accumulator of smaller indices. -/
lemma foldl_sInsert_pairwise (l acc : List ScoredChunk)
    (hacc : acc.Pairwise RankedBefore)
    (hidx : l.Pairwise fun a b => a.index < b.index)
    (hcross : ∀ a ∈ acc, ∀ b ∈ l, a.index < b.index) :
    (l.foldl (fun acc x => sInsert x acc) acc).Pairwise RankedBefore := by
  induction l generalizing acc with
  | nil => exact hacc
  | cons x t ih =>
    rw [List.foldl_cons]
    rw [List.pairwise_cons] at hidx
    obtain ⟨hxt, hidxt⟩ := hidx
    apply ih (sInsert x acc)
    · exact sInsert_pairwise x acc hacc
        (fun b hb => hcross b hb x (List.mem_cons_self x t))
    · exact hidxt
    · intro a ha b hb
      rcases mem_sInsert.mp ha with rfl | haa
      · exact hxt b hb
      · exact hcross a haa b (List.mem_cons_of_mem x hb)

/-- The scored list carries the original chunk indices in strictly increasing
order (they come from `enumerate`). -/
lemma score_list_index_lt (chunks : List String) (embeds : List Vec)
    (job : Vec) :
    (score_list chunks embeds job).Pairwise fun a b => a.index < b.index := by
  unfold score_list
  rw [List.pairwise_map]
  have h2 : (embeds.enum.map Prod.fst).Pairwise (· < ·) := by
    rw [List.enum_map_fst]
    exact List.pairwise_lt_range _
  rw [List.pairwise_map] at h2
  exact h2

/-- Claim C8: for chunk and embedding lists of equal length `N` and any
`top_k = K`, `get_top_matching_chunks` returns exactly `min N K` entries,
sorted descending by score with ties broken by ascending original chunk index
(the stability of Python's `list.sort` on the insertion order). -/
theorem claim_C8 (resume_chunks : List String) (resume_embeddings : List Vec)
    (job_embedding : Vec) (top_k : ℕ)
    (h : resume_chunks.length = resume_embeddings.length) :
    (get_top_matching_chunks resume_chunks resume_embeddings job_embedding
        top_k).length = min resume_chunks.length top_k
    ∧ (get_top_matching_chunks resume_chunks resume_embeddings job_embedding
        top_k).Pairwise RankedBefore := by
  constructor
  · unfold get_top_matching_chunks
    rw [List.length_take, sortScores_length]
    unfold score_list
    rw [List.length_map, List.enum_length, h, Nat.min_comm]
  · unfold get_top_matching_chunks
    apply List.Pairwise.sublist (List.take_sublist _ _)
    unfold sortScores
    exact foldl_sInsert_pairwise _ [] List.Pairwise.nil
      (score_list_index_lt _ _ _) (by intro a ha; cases ha)

/-- Witness for `claim_C8` on two one-dimensional chunks with `top_k = 3`. -/
theorem claim_C8_witness :
    (get_top_matching_chunks ["chunk one", "chunk two"] [[1, 0], [0, 1]]
        [1, 0] 3).length = min 2 3
    ∧ (get_top_matching_chunks ["chunk one", "chunk two"] [[1, 0], [0, 1]]
        [1, 0] 3).Pairwise RankedBefore :=
  ⟨(claim_C8 ["chunk one", "chunk two"] [[1, 0], [0, 1]] [1, 0] 3 rfl).1,
   (claim_C8 ["chunk one", "chunk two"] [[1, 0], [0, 1]] [1, 0] 3 rfl).2⟩

end ResumeMatch
